import Mathlib

/-!
Verification of the recipe-chat application (Next.js client page, chat API
route, and the single-step Mastra workflow) against its specification.

The embedding below translates the relevant source functions:
  * `parseMessageContent` (src/app/page.tsx, lines 30-77): the message
    content segmenter, modelled line-by-line over `List Char` so that the
    JavaScript regular expressions `/\r?\n/`, `/^(#{1,4})\s+(.*)$/`,
    `/^[-*]\s+/` and `/^\d+\.\s+/` can be rendered exactly;
  * `handleSubmit` (page.tsx, lines 169-222): the chat submission
    controller, as a pure function of the pre-submission client state, the
    freshly generated identifiers and the network outcome;
  * the hydration effect (page.tsx, lines 137-155) and
    `handleClearHistory` (page.tsx, lines 224-231): the conversation
    store operations;
  * `POST` (the chat API route): the network gateway, over a small JSON
    value model, with the zod request validation rendered for the concrete
    schema declared in the route;
  * the `execute` of the `delegate-to-recipe-agent` step
    (src/mastra/workflows/recipe-workflow.ts, lines 40-63).

JavaScript built-ins (String.prototype.trim, regular-expression character
classes, Array.prototype.join, nullish coalescing) are modelled from their
ECMAScript-defined behaviour; external collaborators (the Mastra run, the
language-model agent, localStorage, JSON.parse) appear as explicit inputs.
-/

/-! ## JavaScript character classes

`isJsWs` is the ECMAScript whitespace set used by both
`String.prototype.trim` and the regex class `\s`: tab, line feed, vertical
tab, form feed, carriage return, space, NBSP, BOM, the line separators
U+2028/U+2029 and the Unicode space separators. `isLineTerm` is the set of
line terminators that the regex metacharacter `.` does not match. -/

def isJsWs (c : Char) : Bool :=
  c = ' ' || c = '\t' || c = '\n' || c = '\r' || c = '\x0b' || c = '\x0c' ||
  c = '\u00a0' || c = '\u1680' || ('\u2000' ≤ c && c ≤ '\u200a') ||
  c = '\u2028' || c = '\u2029' || c = '\u202f' || c = '\u205f' ||
  c = '\u3000' || c = '\ufeff'

def isLineTerm (c : Char) : Bool :=
  c = '\n' || c = '\r' || c = '\u2028' || c = '\u2029'

/-- JavaScript `String.prototype.trim`, on the character list of a string:
drop the leading and the trailing run of whitespace. -/
def trimLine (cs : List Char) : List Char :=
  (((cs.dropWhile isJsWs).reverse).dropWhile isJsWs).reverse

/-- `content.split(/\r?\n/)`: cut at every line feed, a carriage return
immediately before a line feed belonging to the separator.  A carriage
return not followed by a line feed stays in its line. -/
def splitOnBreaks : List Char → List (List Char)
  | [] => [[]]
  | '\n' :: rest => [] :: splitOnBreaks rest
  | '\r' :: '\n' :: rest => [] :: splitOnBreaks rest
  | c :: rest =>
    match splitOnBreaks rest with
    | [] => [[c]]
    | l :: ls => (c :: l) :: ls

def splitLines (content : String) : List (List Char) :=
  splitOnBreaks content.data

/-! ## The segmenter (`parseMessageContent`, page.tsx lines 30-77) -/

inductive MessageSegment where
  | heading (level : Nat) (text : String)
  | paragraph (text : String)
  | list (items : List String)
  | divider
deriving DecidableEq, Repr

/-- The match `line.match(/^(#{1,4})\s+(.*)$/)` on an already split line:
one to four leading hashes, at least one whitespace, and a remainder free
of line terminators (which `.` cannot cross and `$` cannot absorb); the
captured text is the remainder after the maximal whitespace run. -/
def headingMatch (line : List Char) : Option (Nat × List Char) :=
  let k := (line.takeWhile (fun c => c = '#')).length
  match line.drop k with
  | [] => none
  | c :: rest =>
    if 1 ≤ k ∧ k ≤ 4 ∧ isJsWs c = true then
      let t := List.dropWhile isJsWs (c :: rest)
      if t.all (fun d => !isLineTerm d) = true then some (k, t) else none
    else none

/-- `/^[-*]\s+/`: the test and, when it succeeds, the text left by
`line.replace(/^[-*]\s+/, "")` — the marker and the maximal following
whitespace run removed. -/
def unorderedItem (line : List Char) : Option (List Char) :=
  match line with
  | c :: d :: rest =>
    if (c = '-' ∨ c = '*') ∧ isJsWs d = true then
      some (List.dropWhile isJsWs (d :: rest))
    else none
  | _ => none

/-- `/^\d+\.\s+/`: a digit run, a dot, at least one whitespace; the item is
the text after the maximal whitespace run. -/
def orderedItem (line : List Char) : Option (List Char) :=
  let ds := line.takeWhile (fun c => c.isDigit)
  match line.drop ds.length with
  | '.' :: c :: rest =>
    if 1 ≤ ds.length ∧ isJsWs c = true then
      some (List.dropWhile isJsWs (c :: rest))
    else none
  | _ => none

def dashes : List Char := ['-', '-', '-']

structure ParseState where
  segments : List MessageSegment
  listBuffer : List String
deriving DecidableEq

/-- `flushList` from the source: push the pending list when non-empty. -/
def flushList (st : ParseState) : ParseState :=
  if st.listBuffer.isEmpty then st
  else ⟨st.segments ++ [MessageSegment.list st.listBuffer], []⟩

/-- The body of `lines.forEach(rawLine => ...)` in `parseMessageContent`. -/
def processLine (st : ParseState) (rawLine : List Char) : ParseState :=
  let line := trimLine rawLine
  if line.isEmpty then flushList st
  else if line = dashes then
    let st1 := flushList st
    ⟨st1.segments ++ [MessageSegment.divider], st1.listBuffer⟩
  else
    match headingMatch line with
    | some kt =>
      let st1 := flushList st
      ⟨st1.segments ++ [MessageSegment.heading kt.1 ⟨kt.2⟩], st1.listBuffer⟩
    | none =>
      match unorderedItem line with
      | some it => ⟨st.segments, st.listBuffer ++ [(⟨it⟩ : String)]⟩
      | none =>
        match orderedItem line with
        | some it => ⟨st.segments, st.listBuffer ++ [(⟨it⟩ : String)]⟩
        | none =>
          let st1 := flushList st
          ⟨st1.segments ++ [MessageSegment.paragraph ⟨line⟩], st1.listBuffer⟩

/-- `parseMessageContent` (page.tsx lines 30-77). -/
def parseMessageContent (content : String) : List MessageSegment :=
  (flushList ((splitLines content).foldl processLine ⟨[], []⟩)).segments

/-! ## Chat data model (src/types/chat.ts) -/

inductive ChatRole where
  | user
  | assistant
  | system
deriving DecidableEq, Repr

/-- `chatRoles` (types/chat.ts line 2). -/
def chatRoles : List ChatRole := [ChatRole.user, ChatRole.assistant, ChatRole.system]

structure ChatMessage where
  role : ChatRole
  content : String
deriving DecidableEq, Repr

/-- `ChatUsage` (types/chat.ts lines 11-18): all fields optional
non-negative counters; absence is "unknown", not zero. -/
structure ChatUsage where
  inputTokens : Option Nat := none
  outputTokens : Option Nat := none
  totalTokens : Option Nat := none
  cachedInputTokens : Option Nat := none
  reasoningTokens : Option Nat := none
deriving DecidableEq, Repr

/-- `UIMessage` (page.tsx line 9): `ChatMessage & { id; usage? }`. -/
structure UIMessage where
  id : String
  role : ChatRole
  content : String
  usage : Option ChatUsage := none
deriving DecidableEq, Repr

def welcomeText : String := "你好！告诉我今天想吃什么，我来为你定制菜谱 🍳"

/-- `createWelcomeMessage` (page.tsx lines 18-22); the freshly generated
identifier produced by `generateId()` is passed in explicitly. -/
def createWelcomeMessage (freshId : String) : UIMessage :=
  { id := freshId, role := ChatRole.assistant, content := welcomeText }

/-! ## Client state and the submission controller (page.tsx lines 126-222) -/

/-- The four pieces of React state the submission controller touches. -/
structure ClientState where
  messages : List UIMessage
  input : String
  isLoading : Bool
  error : Option String
deriving DecidableEq, Repr

/-- JavaScript string trim lifted back to `String`. -/
def jsTrim (s : String) : String := ⟨trimLine s.data⟩

/-- The success-branch payload as the client reads it: after
`(await response.json()) as ChatApiResponse` the client still guards every
field (`payload.runId ?? ...`, `payload.message?.role ?? ...`), so each
field is optional here. -/
structure PayloadMessage where
  role : Option ChatRole := none
  content : Option String := none
deriving DecidableEq, Repr

structure SuccessPayload where
  message : Option PayloadMessage := none
  usage : Option ChatUsage := none
  runId : Option String := none
deriving DecidableEq, Repr

/-- What the `fetch`/`response.json()` pair produced.
`payload` with `error = some e`: the parsed body had an `error` key
(`"error" in payload`), `e` its value when a string, `none` when nullish —
the client throws `new Error(payload.error ?? "服务暂时不可用")`.
`thrown m`: `fetch` or `response.json()` threw; `some m` when the thrown
value is an `Error` carrying message `m`. -/
inductive FetchOutcome where
  | payload (error : Option (Option String)) (ok : SuccessPayload)
  | thrown (m : Option String)
deriving DecidableEq, Repr

def fallbackAnswerText : String := "抱歉，我暂时无法给出答案，请稍后重试。"
def genericClientErrorText : String := "服务暂时不可用"
def sendFailedText : String := "发送失败，请重试。"

/-- Result of one invocation of `handleSubmit`: the final client state
once the `finally` ran, and the request body sent to `/api/chat`
(`none` when the guard returned before any network call). -/
structure SubmitResult where
  state : ClientState
  request : Option (List ChatMessage)
deriving DecidableEq, Repr

/-- `handleSubmit` (page.tsx lines 169-222) as a pure function of the
pre-submission state, the identifier `generateId()` returns for the user
message, the identifier it would return for the assistant message, and the
network outcome. -/
def handleSubmit (st : ClientState) (freshUserId freshAssistantId : String)
    (outcome : FetchOutcome) : SubmitResult :=
  if jsTrim st.input = "" ∨ st.isLoading then ⟨st, none⟩
  else
    let userMessage : UIMessage :=
      { id := freshUserId, role := ChatRole.user, content := jsTrim st.input }
    let optimistic := st.messages ++ [userMessage]
    let req := optimistic.map (fun m => ChatMessage.mk m.role m.content)
    let rollback (errText : String) : SubmitResult :=
      ⟨{ messages := optimistic.filter (fun msg => msg.id != userMessage.id),
         input := userMessage.content,
         isLoading := false,
         error := some errText }, some req⟩
    match outcome with
    | FetchOutcome.thrown m => rollback (m.getD sendFailedText)
    | FetchOutcome.payload (some errField) _ =>
        rollback (errField.getD genericClientErrorText)
    | FetchOutcome.payload none p =>
        let assistantMessage : UIMessage :=
          { id := p.runId.getD freshAssistantId,
            role := (p.message.bind PayloadMessage.role).getD ChatRole.assistant,
            content := (p.message.bind PayloadMessage.content).getD fallbackAnswerText,
            usage := p.usage }
        ⟨{ messages := optimistic ++ [assistantMessage],
           input := "",
           isLoading := false,
           error := none }, some req⟩

/-! ## Conversation store (page.tsx lines 137-161 and 224-231) -/

/-- JSON values, for the persisted blob and the gateway request body. -/
inductive Json where
  | null
  | bool (b : Bool)
  | num (n : Int)
  | str (s : String)
  | arr (elems : List Json)
  | obj (fields : List (String × Json))
deriving Repr

/-- After the hydration effect the message state is either still a typed
`UIMessage` list, or — when a non-empty array was parsed out of storage —
the raw parsed elements, cast unchecked by `as UIMessage[]`. -/
inductive Hydrated where
  | typed (msgs : List UIMessage)
  | raw (vals : List Json)

/-- The hydration effect (page.tsx lines 137-155).  `initial` is the state
from the `useState` initializer (a one-element welcome list), `freshWelcome`
the message `createWelcomeMessage()` would build inside the effect,
`parse` the external `JSON.parse` (`Except.error` = it threw), `cached` the
`localStorage.getItem` result.  An absent key and the empty string (falsy
in `if (cached)`) leave the initial state; a parse failure or a parsed
value that is not a non-empty array degrade to the welcome list. -/
def hydrate (initial : List UIMessage) (freshWelcome : UIMessage)
    (parse : String → Except Unit Json) (cached : Option String) : Hydrated :=
  match cached with
  | none => Hydrated.typed initial
  | some s =>
    if s = "" then Hydrated.typed initial
    else
      match parse s with
      | Except.error _ => Hydrated.typed [freshWelcome]
      | Except.ok j =>
        match j with
        | Json.arr (x :: xs) => Hydrated.raw (x :: xs)
        | _ => Hydrated.typed [freshWelcome]

/-- Result of `handleClearHistory`: the new client state and the value
written through `localStorage.setItem` (`none` = no write happened). -/
structure ClearResult where
  state : ClientState
  storageWrite : Option (List UIMessage)
deriving DecidableEq, Repr

/-- `handleClearHistory` (page.tsx lines 224-231): a no-op while a
submission is loading; otherwise reset to a fresh one-element welcome list
and persist exactly that list. -/
def handleClearHistory (st : ClientState) (freshId : String) : ClearResult :=
  if st.isLoading then ⟨st, none⟩
  else
    let welcome := createWelcomeMessage freshId
    ⟨{ st with messages := [welcome] }, some [welcome]⟩

/-! ## Request validation (the zod schemas of the chat API route)

The route declares
`messageSchema = z.object({ role: z.enum(chatRoles), content: z.string().min(1, "内容不能为空") })`
and `requestSchema = z.object({ messages: z.array(messageSchema).min(1, "至少需要一条消息") })`.
`parseChatMessage`/`parseRequest` render `requestSchema.parse` for exactly
this schema: zod's aggregation of all issues, its stripping of unknown
object keys, and its non-empty default issue messages (modelled from zod's
documented behaviour — zod itself is an external library). -/

def jsonTypeName : Json → String
  | Json.null => "null"
  | Json.bool _ => "boolean"
  | Json.num _ => "number"
  | Json.str _ => "string"
  | Json.arr _ => "array"
  | Json.obj _ => "object"

def expectedObjectMsg (j : Json) : String := "Expected object, received " ++ jsonTypeName j
def expectedArrayMsg (j : Json) : String := "Expected array, received " ++ jsonTypeName j
def expectedStringMsg (j : Json) : String := "Expected string, received " ++ jsonTypeName j
def requiredMsg : String := "Required"
def invalidEnumMsg : String := "Invalid enum value. Expected user | assistant | system"
def emptyContentMsg : String := "内容不能为空"
def emptyMessagesMsg : String := "至少需要一条消息"

def roleOfString (s : String) : Option ChatRole :=
  if s = "user" then some ChatRole.user
  else if s = "assistant" then some ChatRole.assistant
  else if s = "system" then some ChatRole.system
  else none

def lookupField (fields : List (String × Json)) (k : String) : Option Json :=
  (fields.find? (fun f => f.1 = k)).map (fun f => f.2)

/-- The `role: z.enum(chatRoles)` field check of `messageSchema`. -/
def parseRole (fs : List (String × Json)) : Except (List String) ChatRole :=
  match lookupField fs "role" with
  | some (Json.str s) =>
    match roleOfString s with
    | some r => Except.ok r
    | none => Except.error [invalidEnumMsg]
  | some _ => Except.error [invalidEnumMsg]
  | none => Except.error [requiredMsg]

/-- The `content: z.string().min(1, "内容不能为空")` field check of `messageSchema`. -/
def parseContent (fs : List (String × Json)) : Except (List String) String :=
  match lookupField fs "content" with
  | some (Json.str s) =>
    if s.length ≥ 1 then Except.ok s else Except.error [emptyContentMsg]
  | some v => Except.error [expectedStringMsg v]
  | none => Except.error [requiredMsg]

/-- `messageSchema.parse` on one array element: both field issues are
collected, role issues first, as zod reports them in key order. -/
def parseChatMessage (j : Json) : Except (List String) ChatMessage :=
  match j with
  | Json.obj fs =>
    match parseRole fs, parseContent fs with
    | Except.ok r, Except.ok c => Except.ok ⟨r, c⟩
    | Except.error e1, Except.error e2 => Except.error (e1 ++ e2)
    | Except.error e1, Except.ok _ => Except.error e1
    | Except.ok _, Except.error e2 => Except.error e2
  | _ => Except.error [expectedObjectMsg j]

/-- Element-wise validation of the `messages` array, all issues collected
in element order, as zod does. -/
def collectMessages : List Json → Except (List String) (List ChatMessage)
  | [] => Except.ok []
  | j :: rest =>
    match parseChatMessage j, collectMessages rest with
    | Except.ok m, Except.ok ms => Except.ok (m :: ms)
    | Except.ok _, Except.error es => Except.error es
    | Except.error es, Except.ok _ => Except.error es
    | Except.error es, Except.error es2 => Except.error (es ++ es2)

/-- `requestSchema.parse` on the request body: the `min(1)` issue of the
`messages` array and the per-element issues are aggregated, as zod
aggregates them. -/
def parseRequest (j : Json) : Except (List String) (List ChatMessage) :=
  match j with
  | Json.obj fs =>
    match lookupField fs "messages" with
    | some (Json.arr elems) =>
      match collectMessages elems, elems.isEmpty with
      | Except.ok ms, false => Except.ok ms
      | Except.ok _, true => Except.error [emptyMessagesMsg]
      | Except.error es, true => Except.error ([emptyMessagesMsg] ++ es)
      | Except.error es, false => Except.error es
    | some v => Except.error [expectedArrayMsg v]
    | none => Except.error [requiredMsg]
  | _ => Except.error [expectedObjectMsg j]

/-! ## The network gateway (the `POST` handler of the chat API route) -/

/-- What the workflow run reported back: the step's result object. -/
structure StepResult where
  message : ChatMessage
  usage : Option ChatUsage := none
  runId : Option String := none
deriving DecidableEq, Repr

/-- Outcome of `run.start` as the handler observes it: a success result, a
non-success status string, or a thrown exception (also standing in for
`createRunAsync` throwing). -/
inductive RunOutcome where
  | success (result : StepResult)
  | failed (status : String)
  | threw
deriving DecidableEq, Repr

/-- External inputs of one `POST` invocation: the parsed request body
(`none` = `req.json()` threw on malformed JSON), whether the workflow
lookup found `recipeChatWorkflow`, the run's own `runId`, and the
execution outcome. -/
structure GatewayEnv where
  body : Option Json
  workflowRegistered : Bool
  runRunId : String
  outcome : RunOutcome

/-- The JSON body of a `NextResponse.json` reply together with its HTTP
status: each field of either `ChatApiResponse` variant, optional, so the
two-variant shape of the answer is a proved property, not a typing
assumption.  `errStatus` is the extra `status` field attached to the
workflow-failure error body. -/
structure ApiResponse where
  httpStatus : Nat
  message : Option ChatMessage
  usage : Option ChatUsage
  runId : Option String
  error : Option String
  errStatus : Option String
deriving DecidableEq, Repr

def errorResponse (code : Nat) (msg : String) : ApiResponse :=
  ⟨code, none, none, none, some msg, none⟩

def serviceUnavailableMsg : String := "服务暂时不可用，请稍后重试"
def workflowMissingMsg : String := "Workflow recipeChatWorkflow 未注册"
def workflowFailedMsg : String := "Workflow 执行失败"

/-- `Array.prototype.join(", ")` on the issue messages. -/
def joinComma : List String → String
  | [] => ""
  | [s] => s
  | s :: rest => s ++ ", " ++ joinComma rest

/-- The `POST` handler of the chat API route (lines 345-392 of the route
source): validation failure → 400 with the joined issue messages; missing
workflow → 500; non-success execution → 500 with the status attached; any
throw → 500 with a generic message; success → 200 with the step's message,
usage, and `runId ?? run.runId`. -/
def POST (env : GatewayEnv) : ApiResponse :=
  match env.body with
  | none => errorResponse 500 serviceUnavailableMsg
  | some j =>
    match parseRequest j with
    | Except.error issues => errorResponse 400 (joinComma issues)
    | Except.ok _input =>
      if env.workflowRegistered then
        match env.outcome with
        | RunOutcome.threw => errorResponse 500 serviceUnavailableMsg
        | RunOutcome.failed st =>
          { httpStatus := 500, message := none, usage := none, runId := none,
            error := some workflowFailedMsg, errStatus := some st }
        | RunOutcome.success r =>
          { httpStatus := 200, message := some r.message, usage := r.usage,
            runId := some (r.runId.getD env.runRunId), error := none,
            errStatus := none }
      else errorResponse 500 workflowMissingMsg

/-! ## The agent delegation step (recipe-workflow.ts lines 40-63) -/

/-- The slice of the agent's `generate` result the step reads:
`text`, `usage`, `response?.id`, `traceId`. -/
structure AgentResponseMeta where
  id : Option String := none
deriving DecidableEq, Repr

structure AgentGenerateResult where
  text : Option String := none
  usage : Option ChatUsage := none
  response : Option AgentResponseMeta := none
  traceId : Option String := none
deriving DecidableEq, Repr

/-- JavaScript `a ?? b` on optional values. -/
def jsCoalesce {α : Type} (a b : Option α) : Option α :=
  match a with
  | some x => some x
  | none => b

/-- The `execute` of the `delegate-to-recipe-agent` step: map each input
message to role and content, hand the list to the agent (whose result is
the explicit `result` input), and normalize the reply.  The first
component is the `agentMessages` list sent to `recipeAgent.generate`, the
second the returned output object. -/
def delegateToAgent (messages : List ChatMessage) (result : AgentGenerateResult) :
    List ChatMessage × StepResult :=
  let agentMessages := messages.map (fun m => ChatMessage.mk m.role m.content)
  let text := result.text.getD ""
  (agentMessages,
   { message := { role := ChatRole.assistant, content := text },
     usage := result.usage,
     runId := jsCoalesce (result.response.bind AgentResponseMeta.id) result.traceId })

/-- Is a JSON value a non-empty array?  (`Array.isArray(parsed) && parsed.length > 0`.) -/
def isNonemptyArr : Json → Bool
  | Json.arr (_ :: _) => true
  | _ => false

/-- The degenerate persisted states of the load contract: key absent, the
falsy empty string, a parse failure, or a parsed value that is not a
non-empty array (wrong shape, or an empty sequence). -/
def cacheDegenerate (parse : String → Except Unit Json) : Option String → Prop
  | none => True
  | some s =>
    s = "" ∨
      match parse s with
      | Except.error _ => True
      | Except.ok j => isNonemptyArr j = false

/-! ## Flattening segments back to classified lines (the order-preservation
law of the spec).  A `Piece` is the contribution of one non-blank input
line; `segPieces` flattens a segment into the pieces that produced it, and
`lineContribution` classifies a raw line exactly as `processLine` does. -/

inductive Piece where
  | headingLine (level : Nat) (text : String)
  | itemLine (text : String)
  | paraLine (text : String)
  | dividerLine
deriving DecidableEq, Repr

def segPieces : MessageSegment → List Piece
  | MessageSegment.heading level text => [Piece.headingLine level text]
  | MessageSegment.paragraph text => [Piece.paraLine text]
  | MessageSegment.divider => [Piece.dividerLine]
  | MessageSegment.list items => items.map Piece.itemLine

def flattenSegs : List MessageSegment → List Piece
  | [] => []
  | s :: rest => segPieces s ++ flattenSegs rest

/-- The classification of one raw input line, mirroring the branch order of
`processLine`: blank lines contribute nothing, every other line exactly one
piece. -/
def lineContribution (rawLine : List Char) : Option Piece :=
  let line := trimLine rawLine
  if line.isEmpty then none
  else if line = dashes then some Piece.dividerLine
  else
    match headingMatch line with
    | some kt => some (Piece.headingLine kt.1 ⟨kt.2⟩)
    | none =>
      match unorderedItem line with
      | some it => some (Piece.itemLine ⟨it⟩)
      | none =>
        match orderedItem line with
        | some it => some (Piece.itemLine ⟨it⟩)
        | none => some (Piece.paraLine ⟨line⟩)

/-- A string with no leading and no trailing JavaScript whitespace. -/
def trimmedStr (s : String) : Prop := trimLine s.data = s.data

/-- A segment text as the segmenter emits it: non-empty and fully trimmed. -/
def goodText (s : String) : Prop := s ≠ "" ∧ trimmedStr s

/-- Every text carried by a segment is `goodText`. -/
def goodSeg : MessageSegment → Prop
  | MessageSegment.heading _ text => goodText text
  | MessageSegment.paragraph text => goodText text
  | MessageSegment.list items => ∀ it ∈ items, goodText it
  | MessageSegment.divider => True

/-! # Theorems -/

/-! ## Supporting lemmas -/

theorem str_append_ne_left (s t : String) (h : s ≠ "") : s ++ t ≠ "" := by
  intro hc
  have hd := congrArg String.data hc
  rw [String.data_append] at hd
  exact h (String.ext (List.append_eq_nil.mp hd).1)

theorem str_append_ne_right (s t : String) (h : t ≠ "") : s ++ t ≠ "" := by
  intro hc
  have hd := congrArg String.data hc
  rw [String.data_append] at hd
  exact h (String.ext (List.append_eq_nil.mp hd).2)

theorem joinComma_ne (es : List String) (hne : es ≠ []) (hmem : ∀ s ∈ es, s ≠ "") :
    joinComma es ≠ "" := by
  match es with
  | [] => exact absurd rfl hne
  | [s] => simpa [joinComma] using hmem s (List.mem_singleton.mpr rfl)
  | s :: b :: r =>
    show s ++ ", " ++ joinComma (b :: r) ≠ ""
    exact str_append_ne_left _ _ (str_append_ne_right _ _ (by decide))

/-! ## C7 -/

/-- C7: `segment` applied to the exact input string
`"# Title\n- a\n- b\n---\nDone"` returns the four-element sequence
heading(level=1, "Title"), list(["a", "b"]), divider, paragraph("Done")
in that order. -/
theorem segmenter_sample_exact :
    parseMessageContent "# Title\n- a\n- b\n---\nDone" =
      [MessageSegment.heading 1 "Title",
       MessageSegment.list ["a", "b"],
       MessageSegment.divider,
       MessageSegment.paragraph "Done"] := by decide

/-! ## C6 -/

/-- C6: while a submission is in flight (`isLoading`), invoking submit
again changes nothing: the state (conversation included) is returned
untouched and no request body is produced (no network call, nothing
queued). -/
theorem submit_while_loading_noop (st : ClientState)
    (freshUserId freshAssistantId : String) (outcome : FetchOutcome)
    (h : st.isLoading = true) :
    handleSubmit st freshUserId freshAssistantId outcome = ⟨st, none⟩ := by
  unfold handleSubmit
  simp [h]

theorem submit_while_loading_noop_witness :
    handleSubmit ⟨[createWelcomeMessage "w0"], "hi", true, none⟩ "u1" "a1"
        (FetchOutcome.thrown none) =
      ⟨⟨[createWelcomeMessage "w0"], "hi", true, none⟩, none⟩ :=
  submit_while_loading_noop _ "u1" "a1" (FetchOutcome.thrown none) rfl

/-! ## C5 -/

/-- C5 counterexample: the claim says every prior conversation state is
reset to a one-element list and persisted, but `handleClearHistory` begins
with `if (isLoading) return;` — while a submission is in flight it neither
shrinks the two-message conversation nor writes to storage. -/
theorem clear_during_loading_counterexample :
    ((handleClearHistory
        ⟨[⟨"w0", ChatRole.assistant, "hello", none⟩, ⟨"u1", ChatRole.user, "hi", none⟩],
         "", true, none⟩ "w1").state.messages.length ≠ 1) ∧
    (handleClearHistory
        ⟨[⟨"w0", ChatRole.assistant, "hello", none⟩, ⟨"u1", ChatRole.user, "hi", none⟩],
         "", true, none⟩ "w1").storageWrite = none := by decide

/-- C5 (amended): when no submission is in flight, `handleClearHistory`
resets the conversation to exactly the one freshly generated welcome
message — length 1, role assistant, the fresh identifier — and persists
that same one-element list; while a submission is in flight it is a no-op. -/
theorem clear_resets_when_idle (st : ClientState) (freshId : String)
    (h : st.isLoading = false) :
    (handleClearHistory st freshId).state.messages = [createWelcomeMessage freshId] ∧
    (handleClearHistory st freshId).state.messages.length = 1 ∧
    (∀ m ∈ (handleClearHistory st freshId).state.messages,
        m.role = ChatRole.assistant ∧ m.id = freshId) ∧
    (handleClearHistory st freshId).storageWrite = some [createWelcomeMessage freshId] := by
  unfold handleClearHistory
  simp [h, createWelcomeMessage]

theorem clear_resets_when_idle_witness :
    (handleClearHistory ⟨[⟨"w0", ChatRole.assistant, "hello", none⟩,
        ⟨"u1", ChatRole.user, "hi", none⟩], "", false, none⟩ "w1").state.messages
      = [createWelcomeMessage "w1"] :=
  (clear_resets_when_idle _ "w1" rfl).1

/-! ## C4 -/

/-- C4: for every persisted value that is absent, malformed (not a
sequence, or a parse failure), falsy, or an empty sequence, the hydration
effect leaves a one-element welcome conversation (either the initializer's
welcome message or the freshly created one) — and, being a total function,
it raises nothing to the caller. -/
theorem hydrate_degenerate_welcome (initialId freshId : String)
    (parse : String → Except Unit Json) (cached : Option String)
    (h : cacheDegenerate parse cached) :
    hydrate [createWelcomeMessage initialId] (createWelcomeMessage freshId) parse cached
        = Hydrated.typed [createWelcomeMessage initialId] ∨
    hydrate [createWelcomeMessage initialId] (createWelcomeMessage freshId) parse cached
        = Hydrated.typed [createWelcomeMessage freshId] := by
  match cached with
  | none => exact Or.inl rfl
  | some s =>
    rcases h with hs | hp
    · left
      simp [hydrate, hs]
    · by_cases hse : s = ""
      · left
        simp [hydrate, hse]
      · right
        simp only [hydrate, if_neg hse]
        rcases hj : parse s with e | j
        · rfl
        · rw [hj] at hp
          match j, hp with
          | Json.null, _ => rfl
          | Json.bool b, _ => rfl
          | Json.num n, _ => rfl
          | Json.str s2, _ => rfl
          | Json.arr [], _ => rfl
          | Json.obj fs, _ => rfl

theorem hydrate_degenerate_welcome_witness :
    hydrate [createWelcomeMessage "w0"] (createWelcomeMessage "w1")
        (fun _ => Except.ok (Json.num 5)) (some "5")
        = Hydrated.typed [createWelcomeMessage "w0"] ∨
    hydrate [createWelcomeMessage "w0"] (createWelcomeMessage "w1")
        (fun _ => Except.ok (Json.num 5)) (some "5")
        = Hydrated.typed [createWelcomeMessage "w1"] :=
  hydrate_degenerate_welcome "w0" "w1" (fun _ => Except.ok (Json.num 5)) (some "5")
    (Or.inr rfl)

/-! ## C9 -/

/-- C9: the delegation step's `execute` returns a message whose role is
assistant and whose content is the agent's textual result (empty string
when the agent supplied none); usage is copied verbatim; `runId` is the
agent's `response.id`, falling back to its `traceId` when that identifier
is absent. -/
theorem delegate_step_normalization (messages : List ChatMessage)
    (result : AgentGenerateResult) :
    (delegateToAgent messages result).2.message.role = ChatRole.assistant ∧
    (delegateToAgent messages result).2.message.content = result.text.getD "" ∧
    (result.text = none → (delegateToAgent messages result).2.message.content = "") ∧
    (delegateToAgent messages result).2.usage = result.usage ∧
    (∀ i, result.response.bind AgentResponseMeta.id = some i →
        (delegateToAgent messages result).2.runId = some i) ∧
    (result.response.bind AgentResponseMeta.id = none →
        (delegateToAgent messages result).2.runId = result.traceId) := by
  refine ⟨rfl, rfl, ?_, rfl, ?_, ?_⟩
  · intro h
    simp [delegateToAgent, h]
  · intro i h
    simp [delegateToAgent, jsCoalesce, h]
  · intro h
    simp [delegateToAgent, jsCoalesce, h]

theorem delegate_step_normalization_witness :
    (delegateToAgent [] ⟨none, none, none, some "t1"⟩).2.message.content = "" ∧
    (delegateToAgent [] ⟨none, none, none, some "t1"⟩).2.runId = some "t1" :=
  ⟨(delegate_step_normalization [] ⟨none, none, none, some "t1"⟩).2.2.1 rfl,
   (delegate_step_normalization [] ⟨none, none, none, some "t1"⟩).2.2.2.2.2 rfl⟩

/-! ## C2 and C3 -/

theorem filter_ne_id_append (msgs : List UIMessage) (u : UIMessage)
    (h : ∀ m ∈ msgs, m.id ≠ u.id) :
    (msgs ++ [u]).filter (fun msg => msg.id != u.id) = msgs := by
  rw [List.filter_append]
  have h1 : msgs.filter (fun msg => msg.id != u.id) = msgs :=
    List.filter_eq_self.mpr (fun m hm => by simpa using h m hm)
  simp [h1]

/-- C2: when the gateway reply is error-shaped (an `error` key in the
payload) or the transport threw, the submission controller rolls back: the
conversation equals the pre-submission one (same length), and the input
field holds the submitted text again (the trimmed text that was sent). -/
theorem submit_error_rollback (st : ClientState)
    (freshUserId freshAssistantId : String) (outcome : FetchOutcome)
    (hin : jsTrim st.input ≠ "")
    (hload : st.isLoading = false)
    (hfresh : ∀ m ∈ st.messages, m.id ≠ freshUserId)
    (herr : (∃ e p, outcome = FetchOutcome.payload (some e) p) ∨
        (∃ m, outcome = FetchOutcome.thrown m)) :
    (handleSubmit st freshUserId freshAssistantId outcome).state.messages
        = st.messages ∧
    (handleSubmit st freshUserId freshAssistantId outcome).state.messages.length
        = st.messages.length ∧
    (handleSubmit st freshUserId freshAssistantId outcome).state.input
        = jsTrim st.input := by
  have hroll := filter_ne_id_append st.messages
    ⟨freshUserId, ChatRole.user, jsTrim st.input, none⟩ (fun m hm => hfresh m hm)
  rcases herr with ⟨e, p, rfl⟩ | ⟨m, rfl⟩ <;>
    · unfold handleSubmit
      rw [if_neg (by simp [hin, hload])]
      exact ⟨hroll, congrArg List.length hroll, rfl⟩

theorem submit_error_rollback_witness :
    jsTrim "  hi  " ≠ "" ∧
    ((handleSubmit ⟨[⟨"w0", ChatRole.assistant, "hello", none⟩], "  hi  ", false, none⟩
        "u1" "a1" (FetchOutcome.payload (some (some "boom")) {})).state.messages
      = [⟨"w0", ChatRole.assistant, "hello", none⟩] ∧
     (handleSubmit ⟨[⟨"w0", ChatRole.assistant, "hello", none⟩], "  hi  ", false, none⟩
        "u1" "a1" (FetchOutcome.payload (some (some "boom")) {})).state.messages.length
      = [(⟨"w0", ChatRole.assistant, "hello", none⟩ : UIMessage)].length ∧
     (handleSubmit ⟨[⟨"w0", ChatRole.assistant, "hello", none⟩], "  hi  ", false, none⟩
        "u1" "a1" (FetchOutcome.payload (some (some "boom")) {})).state.input
      = jsTrim "  hi  ") :=
  ⟨by decide,
   submit_error_rollback ⟨[⟨"w0", ChatRole.assistant, "hello", none⟩], "  hi  ", false, none⟩
     "u1" "a1" (FetchOutcome.payload (some (some "boom")) {})
     (by decide) rfl (by decide)
     (Or.inl ⟨some "boom", {}, rfl⟩)⟩

/-- C3: on a success-shaped reply the controller appends exactly the
optimistic user message and then one assistant `UIMessage` whose identifier
is the reply's `runId` if present else the fresh identifier, whose role
defaults to assistant and whose content defaults to the fixed fallback
string when the payload omits them, and whose usage is copied verbatim. -/
theorem submit_success_append (st : ClientState)
    (freshUserId freshAssistantId : String) (p : SuccessPayload)
    (hin : jsTrim st.input ≠ "")
    (hload : st.isLoading = false) :
    (handleSubmit st freshUserId freshAssistantId
        (FetchOutcome.payload none p)).state.messages
      = st.messages ++
        [⟨freshUserId, ChatRole.user, jsTrim st.input, none⟩,
         ⟨p.runId.getD freshAssistantId,
          (p.message.bind PayloadMessage.role).getD ChatRole.assistant,
          (p.message.bind PayloadMessage.content).getD fallbackAnswerText,
          p.usage⟩] ∧
    (∀ rid, p.runId = some rid → p.runId.getD freshAssistantId = rid) ∧
    (p.runId = none → p.runId.getD freshAssistantId = freshAssistantId) ∧
    (p.message = none →
        (p.message.bind PayloadMessage.role).getD ChatRole.assistant = ChatRole.assistant ∧
        (p.message.bind PayloadMessage.content).getD fallbackAnswerText = fallbackAnswerText) := by
  refine ⟨?_, ?_, ?_, ?_⟩
  · unfold handleSubmit
    rw [if_neg (by simp [hin, hload])]
    simp [List.append_assoc]
  · intro rid h
    rw [h]
    rfl
  · intro h
    rw [h]
    rfl
  · intro h
    rw [h]
    exact ⟨rfl, rfl⟩

theorem submit_success_append_witness :
    jsTrim "食谱 " ≠ "" ∧
    (handleSubmit ⟨[⟨"w0", ChatRole.assistant, "hello", none⟩], " 食谱 ", false, none⟩
        "u1" "a1"
        (FetchOutcome.payload none
          ⟨some ⟨some ChatRole.assistant, some "Try stir-fry"⟩, none, some "r1"⟩)).state.messages
      = [⟨"w0", ChatRole.assistant, "hello", none⟩,
         ⟨"u1", ChatRole.user, jsTrim " 食谱 ", none⟩,
         ⟨"r1", ChatRole.assistant, "Try stir-fry", none⟩] :=
  ⟨by decide, by
    have h := (submit_success_append
      ⟨[⟨"w0", ChatRole.assistant, "hello", none⟩], " 食谱 ", false, none⟩
      "u1" "a1" ⟨some ⟨some ChatRole.assistant, some "Try stir-fry"⟩, none, some "r1"⟩
      (by decide) rfl).1
    simpa using h⟩

/-! ## C1 -/

theorem expectedObjectMsg_ne (j : Json) : expectedObjectMsg j ≠ "" :=
  str_append_ne_left _ _ (by decide)

theorem expectedArrayMsg_ne (j : Json) : expectedArrayMsg j ≠ "" :=
  str_append_ne_left _ _ (by decide)

theorem expectedStringMsg_ne (j : Json) : expectedStringMsg j ≠ "" :=
  str_append_ne_left _ _ (by decide)

theorem parseRole_error_nonempty (fs : List (String × Json)) (es : List String)
    (h : parseRole fs = Except.error es) : es ≠ [] ∧ ∀ s ∈ es, s ≠ "" := by
  unfold parseRole at h
  split at h
  · split at h
    · cases h
    · cases h
      exact ⟨by simp, by decide⟩
  · cases h
    exact ⟨by simp, by decide⟩
  · cases h
    exact ⟨by simp, by decide⟩

theorem parseContent_error_nonempty (fs : List (String × Json)) (es : List String)
    (h : parseContent fs = Except.error es) : es ≠ [] ∧ ∀ s ∈ es, s ≠ "" := by
  unfold parseContent at h
  split at h
  · split at h
    · cases h
    · cases h
      exact ⟨by simp, by decide⟩
  · cases h
    refine ⟨by simp, ?_⟩
    intro s hs
    rw [List.mem_singleton.mp hs]
    exact expectedStringMsg_ne _
  · cases h
    exact ⟨by simp, by decide⟩

theorem parseChatMessage_error_nonempty (j : Json) (es : List String)
    (h : parseChatMessage j = Except.error es) :
    es ≠ [] ∧ ∀ s ∈ es, s ≠ "" := by
  unfold parseChatMessage at h
  split at h
  · split at h
    · cases h
    · cases h
      obtain ⟨hne1, hm1⟩ := parseRole_error_nonempty _ _ (by assumption)
      obtain ⟨hne2, hm2⟩ := parseContent_error_nonempty _ _ (by assumption)
      refine ⟨by simp [hne1], ?_⟩
      intro s hs
      rcases List.mem_append.mp hs with hs | hs
      · exact hm1 s hs
      · exact hm2 s hs
    · cases h
      exact parseRole_error_nonempty _ _ (by assumption)
    · cases h
      exact parseContent_error_nonempty _ _ (by assumption)
  · cases h
    refine ⟨by simp, ?_⟩
    intro s hs
    rw [List.mem_singleton.mp hs]
    exact expectedObjectMsg_ne _

theorem collectMessages_error_nonempty (l : List Json) (es : List String)
    (h : collectMessages l = Except.error es) :
    es ≠ [] ∧ ∀ s ∈ es, s ≠ "" := by
  induction l generalizing es with
  | nil => cases h
  | cons j rest ih =>
    unfold collectMessages at h
    split at h
    · cases h
    · cases h
      exact ih _ (by assumption)
    · cases h
      exact parseChatMessage_error_nonempty _ _ (by assumption)
    · cases h
      obtain ⟨hne1, hm1⟩ := parseChatMessage_error_nonempty _ _ (by assumption)
      obtain ⟨hne2, hm2⟩ := ih _ (by assumption)
      refine ⟨by simp [hne1], ?_⟩
      intro s hs
      rcases List.mem_append.mp hs with hs | hs
      · exact hm1 s hs
      · exact hm2 s hs

theorem parseRequest_error_nonempty (j : Json) (es : List String)
    (h : parseRequest j = Except.error es) :
    es ≠ [] ∧ ∀ s ∈ es, s ≠ "" := by
  have hmin : ∀ s ∈ [emptyMessagesMsg], s ≠ "" := by decide
  have hreq : ∀ s ∈ [requiredMsg], s ≠ "" := by decide
  unfold parseRequest at h
  split at h
  · split at h
    · split at h
      · cases h
      · cases h
        exact ⟨by simp, hmin⟩
      · cases h
        obtain ⟨hne2, hm2⟩ := collectMessages_error_nonempty _ _ (by assumption)
        refine ⟨by simp, ?_⟩
        intro s hs
        rcases List.mem_append.mp hs with hs | hs
        · exact hmin s hs
        · exact hm2 s hs
      · cases h
        exact collectMessages_error_nonempty _ _ (by assumption)
    · cases h
      refine ⟨by simp, ?_⟩
      intro s hs
      rw [List.mem_singleton.mp hs]
      exact expectedArrayMsg_ne _
    · cases h
      exact ⟨by simp, hreq⟩
  · cases h
    refine ⟨by simp, ?_⟩
    intro s hs
    rw [List.mem_singleton.mp hs]
    exact expectedObjectMsg_ne _

/-- An `errorResponse` with a non-empty message satisfies both sides of
the envelope-exclusivity statement. -/
theorem errorShape_of_errorResponse (code : Nat) (msg : String) (hmsg : msg ≠ "") :
    ((errorResponse code msg).error = none →
      (errorResponse code msg).message.isSome ∧
        ∃ rid, (errorResponse code msg).runId = some rid ∧ rid ≠ "") ∧
    (∀ e, (errorResponse code msg).error = some e →
      e ≠ "" ∧ (errorResponse code msg).message = none ∧
        (errorResponse code msg).runId = none ∧ (errorResponse code msg).usage = none) := by
  constructor
  · intro hc
    simp [errorResponse] at hc
  · intro e he
    have he2 : msg = e := by simpa [errorResponse] using he
    exact ⟨he2 ▸ hmsg, rfl, rfl, rfl⟩

/-- C1: for every request body (and, the same way, for the bodies that
fail to parse at all), the `POST` handler answers with exactly one of the
two envelope variants, distinguished by the presence of the `error` field:
when `error` is absent the reply carries a message and a non-empty
`runId`; when `error` is present its text is non-empty and the success
fields are all absent.  The run identifiers produced by the external
collaborators (the Mastra run id, and the step's reported run id when it
reports one) are assumed non-empty, as they are generated identifiers. -/
theorem gateway_envelope_exclusive (env : GatewayEnv)
    (hrun : env.runRunId ≠ "")
    (hstep : ∀ r s, env.outcome = RunOutcome.success r → r.runId = some s → s ≠ "") :
    ((POST env).error = none →
      (POST env).message.isSome ∧
        ∃ rid, (POST env).runId = some rid ∧ rid ≠ "") ∧
    (∀ e, (POST env).error = some e →
      e ≠ "" ∧ (POST env).message = none ∧ (POST env).runId = none ∧
        (POST env).usage = none) := by
  rcases env with ⟨body, registered, runRunId, outcome⟩
  cases body with
  | none => exact errorShape_of_errorResponse 500 serviceUnavailableMsg (by decide)
  | some j =>
    rcases hpr : parseRequest j with issues | msgs
    · have hp : POST ⟨some j, registered, runRunId, outcome⟩
          = errorResponse 400 (joinComma issues) := by
        simp [POST, hpr]
      rw [hp]
      obtain ⟨hne, hmem⟩ := parseRequest_error_nonempty _ _ hpr
      exact errorShape_of_errorResponse _ _ (joinComma_ne issues hne hmem)
    · cases registered with
      | false =>
        have hp : POST ⟨some j, false, runRunId, outcome⟩
            = errorResponse 500 workflowMissingMsg := by
          simp [POST, hpr]
        rw [hp]
        exact errorShape_of_errorResponse _ _ (by decide)
      | true =>
        cases outcome with
        | threw =>
          have hp : POST ⟨some j, true, runRunId, RunOutcome.threw⟩
              = errorResponse 500 serviceUnavailableMsg := by
            simp [POST, hpr]
          rw [hp]
          exact errorShape_of_errorResponse _ _ (by decide)
        | failed status =>
          have hp : POST ⟨some j, true, runRunId, RunOutcome.failed status⟩
              = ⟨500, none, none, none, some workflowFailedMsg, some status⟩ := by
            simp [POST, hpr]
          rw [hp]
          constructor
          · intro hc
            simp at hc
          · intro e he
            have he2 : workflowFailedMsg = e := by simpa using he
            exact ⟨he2 ▸ (by decide : workflowFailedMsg ≠ ""), rfl, rfl, rfl⟩
        | success r =>
          have hp : POST ⟨some j, true, runRunId, RunOutcome.success r⟩
              = ⟨200, some r.message, r.usage, some (r.runId.getD runRunId), none, none⟩ := by
            simp [POST, hpr]
          rw [hp]
          constructor
          · intro _
            refine ⟨rfl, r.runId.getD runRunId, rfl, ?_⟩
            rcases hrid : r.runId with _ | s
            · simpa [hrid] using hrun
            · simpa [hrid] using hstep r s rfl hrid
          · intro e he
            simp at he

theorem gateway_envelope_exclusive_witness :
    ((POST ⟨some (Json.num 3), true, "run-1",
        RunOutcome.success ⟨⟨ChatRole.assistant, "ok"⟩, none, some "id-1"⟩⟩).error = none →
      (POST ⟨some (Json.num 3), true, "run-1",
        RunOutcome.success ⟨⟨ChatRole.assistant, "ok"⟩, none, some "id-1"⟩⟩).message.isSome ∧
        ∃ rid, (POST ⟨some (Json.num 3), true, "run-1",
          RunOutcome.success ⟨⟨ChatRole.assistant, "ok"⟩, none, some "id-1"⟩⟩).runId
            = some rid ∧ rid ≠ "") ∧
    (∀ e, (POST ⟨some (Json.num 3), true, "run-1",
        RunOutcome.success ⟨⟨ChatRole.assistant, "ok"⟩, none, some "id-1"⟩⟩).error = some e →
      e ≠ "" ∧ (POST ⟨some (Json.num 3), true, "run-1",
        RunOutcome.success ⟨⟨ChatRole.assistant, "ok"⟩, none, some "id-1"⟩⟩).message = none ∧
      (POST ⟨some (Json.num 3), true, "run-1",
        RunOutcome.success ⟨⟨ChatRole.assistant, "ok"⟩, none, some "id-1"⟩⟩).runId = none ∧
      (POST ⟨some (Json.num 3), true, "run-1",
        RunOutcome.success ⟨⟨ChatRole.assistant, "ok"⟩, none, some "id-1"⟩⟩).usage = none) :=
  gateway_envelope_exclusive
    ⟨some (Json.num 3), true, "run-1",
      RunOutcome.success ⟨⟨ChatRole.assistant, "ok"⟩, none, some "id-1"⟩⟩
    (by decide)
    (fun r s hr hs => by
      cases hr
      cases hs
      decide)

/-! ## Trimming lemmas (for C10 and C8) -/

theorem dropWhile_head_not (p : Char → Bool) (l : List Char) (c : Char)
    (h : (l.dropWhile p).head? = some c) : p c = false := by
  induction l with
  | nil => simp [List.dropWhile] at h
  | cons a l ih =>
    rw [List.dropWhile_cons] at h
    cases hpa : p a with
    | true =>
      rw [hpa] at h
      simp only [if_true] at h
      exact ih h
    | false =>
      rw [hpa] at h
      simp only [Bool.false_eq_true, if_false, List.head?_cons, Option.some.injEq] at h
      rw [← h]
      exact hpa

theorem dropWhile_eq_self_of_head (p : Char → Bool) (l : List Char)
    (h : ∀ c, l.head? = some c → p c = false) : l.dropWhile p = l := by
  cases l with
  | nil => rfl
  | cons a l =>
    rw [List.dropWhile_cons, h a rfl]
    simp

theorem suffix_getLast_eq (s l : List Char) (hs : s <:+ l) (hne : s ≠ []) :
    s.getLast? = l.getLast? := by
  obtain ⟨pre, rfl⟩ := hs
  exact (List.getLast?_append_of_ne_nil pre hne).symm

theorem mem_of_getLast_some (l : List Char) (a : Char) (h : l.getLast? = some a) :
    a ∈ l := by
  obtain ⟨hne, hx⟩ := List.mem_getLast?_eq_getLast (l := l) (x := a) h
  rw [hx]
  exact List.getLast_mem hne

theorem trimLine_head_not (cs : List Char) (c : Char)
    (h : (trimLine cs).head? = some c) : isJsWs c = false := by
  unfold trimLine at h
  rw [List.head?_reverse] at h
  have hne : List.dropWhile isJsWs (List.dropWhile isJsWs cs).reverse ≠ [] := by
    intro hnil
    rw [hnil] at h
    cases h
  rw [suffix_getLast_eq _ _ (List.dropWhile_suffix _) hne, List.getLast?_reverse] at h
  exact dropWhile_head_not _ _ _ h

theorem trimLine_getLast_not (cs : List Char) (c : Char)
    (h : (trimLine cs).getLast? = some c) : isJsWs c = false := by
  unfold trimLine at h
  rw [List.getLast?_reverse] at h
  exact dropWhile_head_not _ _ _ h

theorem trimLine_eq_self (l : List Char)
    (hhead : ∀ c, l.head? = some c → isJsWs c = false)
    (hlast : ∀ c, l.getLast? = some c → isJsWs c = false) :
    trimLine l = l := by
  show (((l.dropWhile isJsWs).reverse).dropWhile isJsWs).reverse = l
  rw [dropWhile_eq_self_of_head _ _ hhead]
  rw [dropWhile_eq_self_of_head _ _ (fun c hc => by
    rw [List.head?_reverse] at hc
    exact hlast c hc)]
  exact List.reverse_reverse l

theorem trimLine_idem (cs : List Char) : trimLine (trimLine cs) = trimLine cs :=
  trimLine_eq_self _ (trimLine_head_not cs) (trimLine_getLast_not cs)

/-- Any non-empty suffix of a trimmed line, stripped of its leading
whitespace run, is non-empty and itself trimmed — the shape of every text
the segmenter extracts from a line. -/
theorem trimmed_suffix_dropWhile (raw s : List Char)
    (hs : s <:+ trimLine raw) (hne : s ≠ []) :
    s.dropWhile isJsWs ≠ [] ∧
      trimLine (s.dropWhile isJsWs) = s.dropWhile isJsWs := by
  obtain ⟨cl, hcl⟩ : ∃ cl, s.getLast? = some cl := by
    cases hgl : s.getLast? with
    | none => exact absurd (List.getLast?_eq_none_iff.mp hgl) hne
    | some a => exact ⟨a, rfl⟩
  have hwl : isJsWs cl = false := by
    apply trimLine_getLast_not raw cl
    rw [← suffix_getLast_eq s _ hs hne]
    exact hcl
  have htne : s.dropWhile isJsWs ≠ [] := by
    intro hnil
    have hall := List.dropWhile_eq_nil_iff.mp hnil
    rw [hall cl (mem_of_getLast_some s cl hcl)] at hwl
    cases hwl
  refine ⟨htne, trimLine_eq_self _ (dropWhile_head_not isJsWs s) (fun c hc => ?_)⟩
  rw [suffix_getLast_eq _ s (List.dropWhile_suffix _) htne, hcl] at hc
  cases hc
  exact hwl

theorem headingMatch_text_good (raw : List Char) (k : Nat) (t : List Char)
    (h : headingMatch (trimLine raw) = some (k, t)) :
    t ≠ [] ∧ trimLine t = t := by
  simp only [headingMatch] at h
  split at h
  · cases h
  · rename_i c rest heq
    split at h
    · split at h
      · rw [Option.some.injEq, Prod.mk.injEq] at h
        rw [← h.2]
        exact trimmed_suffix_dropWhile raw (c :: rest)
          (heq ▸ List.drop_suffix _ _) (by simp)
      · cases h
    · cases h

theorem unorderedItem_text_good (raw : List Char) (it : List Char)
    (h : unorderedItem (trimLine raw) = some it) :
    it ≠ [] ∧ trimLine it = it := by
  unfold unorderedItem at h
  split at h
  · rename_i c d rest heq
    split at h
    · rw [Option.some.injEq] at h
      rw [← h]
      refine trimmed_suffix_dropWhile raw (d :: rest) ?_ (by simp)
      rw [heq]
      exact List.suffix_cons c (d :: rest)
    · cases h
  · cases h

theorem orderedItem_text_good (raw : List Char) (it : List Char)
    (h : orderedItem (trimLine raw) = some it) :
    it ≠ [] ∧ trimLine it = it := by
  simp only [orderedItem] at h
  split at h
  · rename_i c rest heq
    split at h
    · rw [Option.some.injEq] at h
      rw [← h]
      refine trimmed_suffix_dropWhile raw (c :: rest) ?_ (by simp)
      refine (List.suffix_cons '.' (c :: rest)).trans ?_
      exact heq ▸ List.drop_suffix _ _
    · cases h
  · cases h

theorem flushList_good (st : ParseState)
    (hseg : ∀ seg ∈ st.segments, goodSeg seg)
    (hbuf : ∀ it ∈ st.listBuffer, goodText it) :
    (∀ seg ∈ (flushList st).segments, goodSeg seg) ∧
    (∀ it ∈ (flushList st).listBuffer, goodText it) := by
  unfold flushList
  split
  · exact ⟨hseg, hbuf⟩
  · constructor
    · intro seg hm
      rcases List.mem_append.mp hm with hm | hm
      · exact hseg seg hm
      · rw [List.mem_singleton.mp hm]
        exact hbuf
    · intro it hm
      simp at hm

theorem processLine_good (st : ParseState) (raw : List Char)
    (hseg : ∀ seg ∈ st.segments, goodSeg seg)
    (hbuf : ∀ it ∈ st.listBuffer, goodText it) :
    (∀ seg ∈ (processLine st raw).segments, goodSeg seg) ∧
    (∀ it ∈ (processLine st raw).listBuffer, goodText it) := by
  simp only [processLine]
  split
  · exact flushList_good st hseg hbuf
  · rename_i hnotblank
    obtain ⟨h1, h2⟩ := flushList_good st hseg hbuf
    split
    · constructor
      · intro seg hm
        rcases List.mem_append.mp hm with hm | hm
        · exact h1 seg hm
        · rw [List.mem_singleton.mp hm]
          trivial
      · exact h2
    · split
      · rename_i kt heq
        obtain ⟨hne, htr⟩ := headingMatch_text_good raw kt.1 kt.2 (by rw [heq])
        constructor
        · intro seg hm
          rcases List.mem_append.mp hm with hm | hm
          · exact h1 seg hm
          · rw [List.mem_singleton.mp hm]
            exact ⟨fun hc => hne (congrArg String.data hc), htr⟩
        · exact h2
      · split
        · rename_i it heq
          obtain ⟨hne, htr⟩ := unorderedItem_text_good raw it heq
          constructor
          · exact hseg
          · intro x hm
            rcases List.mem_append.mp hm with hm | hm
            · exact hbuf x hm
            · rw [List.mem_singleton.mp hm]
              exact ⟨fun hc => hne (congrArg String.data hc), htr⟩
        · split
          · rename_i it heq
            obtain ⟨hne, htr⟩ := orderedItem_text_good raw it heq
            constructor
            · exact hseg
            · intro x hm
              rcases List.mem_append.mp hm with hm | hm
              · exact hbuf x hm
              · rw [List.mem_singleton.mp hm]
                exact ⟨fun hc => hne (congrArg String.data hc), htr⟩
          · constructor
            · intro seg hm
              rcases List.mem_append.mp hm with hm | hm
              · exact h1 seg hm
              · rw [List.mem_singleton.mp hm]
                refine ⟨fun hc => ?_, trimLine_idem raw⟩
                have hd : trimLine raw = [] := congrArg String.data hc
                rw [hd] at hnotblank
                exact hnotblank rfl
            · exact h2

theorem foldl_flush_good (lines : List (List Char)) (st : ParseState)
    (hseg : ∀ seg ∈ st.segments, goodSeg seg)
    (hbuf : ∀ it ∈ st.listBuffer, goodText it) :
    ∀ seg ∈ (flushList (lines.foldl processLine st)).segments, goodSeg seg := by
  induction lines generalizing st with
  | nil => exact (flushList_good st hseg hbuf).1
  | cons raw rest ih =>
    rw [List.foldl_cons]
    obtain ⟨h1, h2⟩ := processLine_good st raw hseg hbuf
    exact ih _ h1 h2

/-! ## C10 -/

/-- C10: the segmenter classifies every line only after trimming it — a
whitespace-only line acts exactly like a blank line (it flushes the
pending list and emits nothing), a line is processed identically to its
trimmed form (so markers surrounded by whitespace are still recognized),
and consequently every emitted heading text, paragraph text and list item
is a non-empty string without leading or trailing whitespace. -/
theorem segmenter_trim_classification :
    (∀ st rawLine, trimLine rawLine = [] → processLine st rawLine = flushList st) ∧
    (∀ st rawLine, processLine st rawLine = processLine st (trimLine rawLine)) ∧
    (∀ content level text,
      MessageSegment.heading level text ∈ parseMessageContent content →
        text ≠ "" ∧ trimmedStr text) ∧
    (∀ content text,
      MessageSegment.paragraph text ∈ parseMessageContent content →
        text ≠ "" ∧ trimmedStr text) ∧
    (∀ content items it,
      MessageSegment.list items ∈ parseMessageContent content → it ∈ items →
        it ≠ "" ∧ trimmedStr it) := by
  have hgood : ∀ content, ∀ seg ∈ parseMessageContent content, goodSeg seg :=
    fun content =>
      foldl_flush_good (splitLines content) ⟨[], []⟩ (by simp) (by simp)
  refine ⟨?_, ?_, ?_, ?_, ?_⟩
  · intro st raw h
    simp [processLine, h]
  · intro st raw
    simp only [processLine, trimLine_idem]
  · intro content level text hm
    exact hgood content _ hm
  · intro content text hm
    exact hgood content _ hm
  · intro content items it hm hit
    exact hgood content _ hm it hit

theorem segmenter_trim_classification_witness :
    processLine ⟨[], []⟩ [' ', '\t'] = flushList ⟨[], []⟩ ∧
    ("Title" ≠ "" ∧ trimmedStr "Title") :=
  ⟨segmenter_trim_classification.1 ⟨[], []⟩ [' ', '\t'] (by decide),
   segmenter_trim_classification.2.2.1 " # Title " 1 "Title" (by decide)⟩

/-! ## C8 -/

theorem flattenSegs_append (a b : List MessageSegment) :
    flattenSegs (a ++ b) = flattenSegs a ++ flattenSegs b := by
  induction a with
  | nil => rfl
  | cons s rest ih =>
    simp [flattenSegs, ih]

/-- `flushList` always leaves an empty buffer, and flattening its segments
appends the buffered items, in order, to the flattening of the old
segments. -/
theorem flushList_eq (segs : List MessageSegment) (buf : List String) :
    ∃ segs2, flushList ⟨segs, buf⟩ = ⟨segs2, []⟩ ∧
      flattenSegs segs2 = flattenSegs segs ++ buf.map Piece.itemLine := by
  cases buf with
  | nil => exact ⟨segs, rfl, by simp⟩
  | cons b bs =>
    refine ⟨segs ++ [MessageSegment.list (b :: bs)], rfl, ?_⟩
    rw [flattenSegs_append]
    simp [flattenSegs, segPieces]

/-- One pass of the fold, flattened: the final segments are the flattening
of the starting segments, then the buffered items, then the contribution
of every remaining line in input order. -/
theorem foldl_flatten (lines : List (List Char)) (segs : List MessageSegment)
    (buf : List String) :
    flattenSegs (flushList (lines.foldl processLine ⟨segs, buf⟩)).segments
      = flattenSegs segs ++ buf.map Piece.itemLine
          ++ lines.filterMap lineContribution := by
  induction lines generalizing segs buf with
  | nil =>
    obtain ⟨segs2, he, hf⟩ := flushList_eq segs buf
    rw [List.foldl_nil, he]
    simpa using hf
  | cons raw rest ih =>
    rw [List.foldl_cons, List.filterMap_cons]
    by_cases hblank : (trimLine raw).isEmpty
    · have hp : processLine ⟨segs, buf⟩ raw = flushList ⟨segs, buf⟩ := by
        simp [processLine, hblank]
      have hc : lineContribution raw = none := by
        simp [lineContribution, hblank]
      obtain ⟨segs2, he, hf⟩ := flushList_eq segs buf
      rw [hp, hc, he, ih segs2 [], hf]
      simp
    · by_cases hdash : trimLine raw = dashes
      · have hp : processLine ⟨segs, buf⟩ raw
            = ⟨(flushList ⟨segs, buf⟩).segments ++ [MessageSegment.divider],
               (flushList ⟨segs, buf⟩).listBuffer⟩ := by
          simp [processLine, hblank, hdash, dashes]
        have hc : lineContribution raw = some Piece.dividerLine := by
          simp [lineContribution, hblank, hdash, dashes]
        obtain ⟨segs2, he, hf⟩ := flushList_eq segs buf
        rw [hp, hc, he, ih (segs2 ++ [MessageSegment.divider]) [],
          flattenSegs_append, hf]
        simp [flattenSegs, segPieces, List.append_assoc]
      · rcases hhead : headingMatch (trimLine raw) with _ | kt
        · rcases hun : unorderedItem (trimLine raw) with _ | it
          · rcases hord : orderedItem (trimLine raw) with _ | it
            · -- paragraph
              have hp : processLine ⟨segs, buf⟩ raw
                  = ⟨(flushList ⟨segs, buf⟩).segments
                      ++ [MessageSegment.paragraph ⟨trimLine raw⟩],
                     (flushList ⟨segs, buf⟩).listBuffer⟩ := by
                simp [processLine, hblank, hdash, hhead, hun, hord]
              have hc : lineContribution raw
                  = some (Piece.paraLine ⟨trimLine raw⟩) := by
                simp [lineContribution, hblank, hdash, hhead, hun, hord]
              obtain ⟨segs2, he, hf⟩ := flushList_eq segs buf
              rw [hp, hc, he,
                ih (segs2 ++ [MessageSegment.paragraph ⟨trimLine raw⟩]) [],
                flattenSegs_append, hf]
              simp [flattenSegs, segPieces, List.append_assoc]
            · -- ordered list item
              have hp : processLine ⟨segs, buf⟩ raw
                  = ⟨segs, buf ++ [(⟨it⟩ : String)]⟩ := by
                simp [processLine, hblank, hdash, hhead, hun, hord]
              have hc : lineContribution raw
                  = some (Piece.itemLine ⟨it⟩) := by
                simp [lineContribution, hblank, hdash, hhead, hun, hord]
              rw [hp, hc, ih segs (buf ++ [(⟨it⟩ : String)])]
              simp [List.append_assoc]
          · -- unordered list item
            have hp : processLine ⟨segs, buf⟩ raw
                = ⟨segs, buf ++ [(⟨it⟩ : String)]⟩ := by
              simp [processLine, hblank, hdash, hhead, hun]
            have hc : lineContribution raw
                = some (Piece.itemLine ⟨it⟩) := by
              simp [lineContribution, hblank, hdash, hhead, hun]
            rw [hp, hc, ih segs (buf ++ [(⟨it⟩ : String)])]
            simp [List.append_assoc]
        · -- heading
          have hp : processLine ⟨segs, buf⟩ raw
              = ⟨(flushList ⟨segs, buf⟩).segments
                  ++ [MessageSegment.heading kt.1 ⟨kt.2⟩],
                 (flushList ⟨segs, buf⟩).listBuffer⟩ := by
            simp [processLine, hblank, hdash, hhead]
          have hc : lineContribution raw
              = some (Piece.headingLine kt.1 ⟨kt.2⟩) := by
            simp [lineContribution, hblank, hdash, hhead]
          obtain ⟨segs2, he, hf⟩ := flushList_eq segs buf
          rw [hp, hc, he,
            ih (segs2 ++ [MessageSegment.heading kt.1 ⟨kt.2⟩]) [],
            flattenSegs_append, hf]
          simp [flattenSegs, segPieces, List.append_assoc]

theorem foldl_blank (lines : List (List Char))
    (h : ∀ raw ∈ lines, trimLine raw = []) :
    lines.foldl processLine ⟨[], []⟩ = ⟨[], []⟩ := by
  induction lines with
  | nil => rfl
  | cons raw rest ih =>
    rw [List.foldl_cons]
    have h1 : processLine ⟨[], []⟩ raw = ⟨[], []⟩ := by
      simp [processLine, h raw (by simp), flushList]
    rw [h1]
    exact ih (fun r hr => h r (by simp [hr]))

theorem flushList_lists_nonempty (st : ParseState)
    (h : ∀ items, MessageSegment.list items ∈ st.segments → items ≠ []) :
    ∀ items, MessageSegment.list items ∈ (flushList st).segments → items ≠ [] := by
  unfold flushList
  split
  · exact h
  · rename_i hne
    intro items hm
    rcases List.mem_append.mp hm with hm | hm
    · exact h items hm
    · have heq := List.mem_singleton.mp hm
      rw [MessageSegment.list.injEq] at heq
      rw [heq]
      intro hnil
      rw [hnil] at hne
      exact hne rfl

theorem processLine_lists_nonempty (st : ParseState) (raw : List Char)
    (h : ∀ items, MessageSegment.list items ∈ st.segments → items ≠ []) :
    ∀ items, MessageSegment.list items ∈ (processLine st raw).segments →
      items ≠ [] := by
  simp only [processLine]
  split
  · exact flushList_lists_nonempty st h
  · have h1 := flushList_lists_nonempty st h
    split
    · intro items hm
      rcases List.mem_append.mp hm with hm | hm
      · exact h1 items hm
      · cases List.mem_singleton.mp hm
    · split
      · intro items hm
        rcases List.mem_append.mp hm with hm | hm
        · exact h1 items hm
        · cases List.mem_singleton.mp hm
      · split
        · exact h
        · split
          · exact h
          · intro items hm
            rcases List.mem_append.mp hm with hm | hm
            · exact h1 items hm
            · cases List.mem_singleton.mp hm

theorem foldl_lists_nonempty (lines : List (List Char)) (st : ParseState)
    (h : ∀ items, MessageSegment.list items ∈ st.segments → items ≠ []) :
    ∀ items,
      MessageSegment.list items ∈ (flushList (lines.foldl processLine st)).segments →
        items ≠ [] := by
  induction lines generalizing st with
  | nil => exact flushList_lists_nonempty st h
  | cons raw rest ih =>
    rw [List.foldl_cons]
    exact ih _ (processLine_lists_nonempty st raw h)

/-- C8: order preservation and the blank/empty guarantees of the
segmenter.  Flattening the output segments back into per-line pieces
reproduces exactly the classified non-blank input lines in input order (so
the relative order of headings, paragraphs, dividers and list blocks
matches the lines that produced them); an input whose lines are all blank
after trimming (the empty string included) yields no segments; and every
emitted list segment carries at least one item. -/
theorem segmenter_order_preservation (content : String) :
    flattenSegs (parseMessageContent content)
        = (splitLines content).filterMap lineContribution ∧
    ((∀ raw ∈ splitLines content, trimLine raw = []) →
        parseMessageContent content = []) ∧
    (∀ items, MessageSegment.list items ∈ parseMessageContent content →
        items ≠ []) := by
  refine ⟨?_, ?_, ?_⟩
  · show flattenSegs
        (flushList ((splitLines content).foldl processLine ⟨[], []⟩)).segments
      = (splitLines content).filterMap lineContribution
    rw [foldl_flatten]
    simp [flattenSegs]
  · intro hblank
    show (flushList ((splitLines content).foldl processLine ⟨[], []⟩)).segments = []
    rw [foldl_blank (splitLines content) hblank]
    rfl
  · exact foldl_lists_nonempty (splitLines content) ⟨[], []⟩ (by simp)

theorem segmenter_order_preservation_witness :
    parseMessageContent "" = [] :=
  (segmenter_order_preservation "").2.1 (by decide)
